import Mathlib

/-!
Verification of the selection/dedup/routing/fitting pipeline of the
itmoldova telegram bot (src/bot.py).

Python strings are modelled as `List Char` (a Python `str` is a sequence of
unicode code points).  Python dictionaries produced by the script
(`candidates`, `grouped_items`, category configs, parsed feed entries, the
persisted state) are modelled as Lean structures.  The external
collaborators (feedparser, requests, the filesystem, the clock) are
modelled by their observable values: a feed is its parsed entry list, the
clock is the formatted date string, the HTTP layer is the pair of
success/failure outcomes of the two `requests.post` calls, the state file
is its (absent / unparseable / parsed) content.
-/

namespace Bot

/-- A Python `str`: a sequence of unicode code points. -/
abbrev PyStr := List Char

/-- Code-point list of a Lean string literal. -/
def str (s : String) : PyStr := s.data

/-- `len(s.encode("utf-8"))`: the UTF-8 byte length of a Python string. -/
def utf8Len (s : PyStr) : Nat := (s.map Char.utf8Size).sum

/-- Python `s.lower()` (ASCII case folding; the titles and keywords the
script compares are folded character-wise). -/
def pyLower (s : PyStr) : PyStr := s.map Char.toLower

/-- Python `s.strip()`: remove leading and trailing whitespace. -/
def pyStrip (s : PyStr) : PyStr :=
  ((s.dropWhile Char.isWhitespace).reverse.dropWhile Char.isWhitespace).reverse

/-- Python `needle in hay` for strings: substring containment. -/
def pyIn (needle : PyStr) : PyStr → Bool
  | [] => needle.isEmpty
  | c :: rest => needle.isPrefixOf (c :: rest) || pyIn needle rest

/-- Worker for `pyReplace`; `fuel` bounds the number of scanning steps.
Each step consumes at least one character of the scanned suffix, so
`fuel = s.length` always suffices. -/
def pyReplaceGo (pat rep : PyStr) : Nat → PyStr → PyStr
  | _, [] => []
  | 0, s => s
  | fuel + 1, c :: rest =>
    if !pat.isEmpty && pat.isPrefixOf (c :: rest) then
      rep ++ pyReplaceGo pat rep fuel ((c :: rest).drop pat.length)
    else
      c :: pyReplaceGo pat rep fuel rest

/-- Python `s.replace(pat, rep)` for a non-empty `pat`: replace every
(non-overlapping, leftmost-first) occurrence.  The script only calls it
with the non-empty patterns `"&"`, `"<"`, `">"`, `"\""`, `"www."`. -/
def pyReplace (s pat rep : PyStr) : PyStr := pyReplaceGo pat rep s.length s

/-- Python `a or b` on two strings: `b` when `a` is empty (falsy), else `a`.
Also covers `entry.get(k) or d`, where an absent key is `None` (falsy,
modelled as the empty string via `Option.getD`). -/
def pyOrS (a b : PyStr) : PyStr := if a.isEmpty then b else a

/-! ## Raw feed entries and the identity extractor (bot.py 124-137) -/

/-- One raw entry as produced by the external feed parser: each field is
optional (`none` models both an absent key and Python `None`).  The two
`*_parsed` time structures are modelled by the UTC epoch seconds that
`calendar.timegm` extracts from them. -/
structure RawEntry where
  id? : Option PyStr
  guid? : Option PyStr
  link? : Option PyStr
  title? : Option PyStr
  published_parsed? : Option Int
  updated_parsed? : Option Int
deriving DecidableEq, Repr

/-- `entry_id` (bot.py 124-129):
`(entry.get("id") or entry.get("guid") or (entry.get("link","") + "|" + entry.get("title","")))[:500]`. -/
def entry_id (e : RawEntry) : PyStr :=
  (pyOrS (e.id?.getD [])
    (pyOrS (e.guid?.getD [])
      ((e.link?.getD []) ++ str "|" ++ (e.title?.getD [])))).take 500

/-- `entry_ts` (bot.py 132-137): published time if present, else updated
time, else `0` (a present `struct_time` is always truthy in Python). -/
def entry_ts (e : RawEntry) : Int :=
  match e.published_parsed? with
  | some t => t
  | none => e.updated_parsed?.getD 0

/-! ## Routing rules and the category router (bot.py 25-38, 149-161) -/

structure RoutingRule where
  keywords : List PyStr
  target : PyStr
deriving DecidableEq, Repr

/-- `ROUTING_RULES` (bot.py 25-38). -/
def ROUTING_RULES : List RoutingRule :=
  [ ⟨[str "cve-", str "zero-day", str "0-day", str "exploit", str "poc"],
      str "🛠️ Critical Vulnerabilities"⟩,
    ⟨[str "phishing", str "scam", str "fraud", str "spoof"],
      str "🚨 Breaking & Incidents"⟩,
    ⟨[str "apt", str "malware", str "botnet", str "campaign"],
      str "🧠 Threat Intelligence"⟩ ]

/-- The rule loop of `route_category` (bot.py 155-160): first rule with a
truthy target present in `known_categories` and a truthy keyword occurring
in the lowered title returns that target. -/
def routeGo (t : PyStr) (known : List PyStr) : List RoutingRule → Option PyStr
  | [] => none
  | rule :: rest =>
    if rule.target ≠ [] ∧ rule.target ∈ known then
      if rule.keywords.any (fun kw => !kw.isEmpty && pyIn kw t) then some rule.target
      else routeGo t known rest
    else routeGo t known rest

/-- `route_category` (bot.py 149-161). -/
def route_category (title current_category : PyStr) (known_categories : List PyStr) : PyStr :=
  (routeGo (pyLower title) known_categories ROUTING_RULES).getD current_category

/-- The router as the spec describes it (§4.3): lower-case the title,
find the first rule whose target is among the known category names and
one of whose keywords is a substring of the lowered title, else keep the
source category. -/
def routeSpec (title current_category : PyStr) (known_categories : List PyStr) : PyStr :=
  match ROUTING_RULES.find?
      (fun r => decide (r.target ∈ known_categories)
        && r.keywords.any (fun kw => pyIn kw (pyLower title))) with
  | some r => r.target
  | none => current_category

/-! ## Emoji detection and HTML escaping (bot.py 140-146, 164-177) -/

structure EmojiRule where
  emoji : PyStr
  keywords : List PyStr
deriving DecidableEq, Repr

/-- The rule loop of `detect_emoji` (bot.py 142-145). -/
def detectGo (t default_emoji : PyStr) : List EmojiRule → PyStr
  | [] => default_emoji
  | r :: rest => if r.keywords.any (fun kw => pyIn kw t) then r.emoji
      else detectGo t default_emoji rest

/-- `detect_emoji` (bot.py 140-146): first rule any of whose keywords
occurs in the lowered title wins, else the default glyph. -/
def detect_emoji (title default_emoji : PyStr) (rules : List EmojiRule) : PyStr :=
  detectGo (pyLower title) default_emoji rules

/-- `html_escape_text` (bot.py 164-166). -/
def html_escape_text (s : PyStr) : PyStr :=
  pyReplace (pyReplace (pyReplace s (str "&") (str "&amp;"))
    (str "<") (str "&lt;")) (str ">") (str "&gt;")

/-- `html_escape_attr` (bot.py 169-177). -/
def html_escape_attr (s : PyStr) : PyStr :=
  pyReplace (pyReplace (pyReplace (pyReplace s
    (str "&") (str "&amp;"))
    (str "\"") (str "&quot;"))
    (str "<") (str "&lt;"))
    (str ">") (str "&gt;")

/-! ## `domain_of` (bot.py 180-184), over a model of `urlparse(...).netloc` -/

/-- Characters that terminate the authority component of a URL. -/
def takeNetlocChars : PyStr → PyStr
  | [] => []
  | c :: rest => if c = '/' ∨ c = '?' ∨ c = '#' then [] else c :: takeNetlocChars rest

/-- The suffix after the first occurrence of `pat`, if any. -/
def afterFirst (pat : PyStr) : PyStr → Option PyStr
  | [] => none
  | c :: rest =>
    if pat.isPrefixOf (c :: rest) then some ((c :: rest).drop pat.length)
    else afterFirst pat rest

/-- Model of `urlparse(url).netloc` (external `urllib.parse`): the
authority part between `"://"` and the next `/`, `?` or `#`; empty when
the URL has no `"://"`. -/
def netlocOf (url : PyStr) : PyStr :=
  match afterFirst (str "://") url with
  | some r => takeNetlocChars r
  | none => []

/-- `domain_of` (bot.py 180-184): the netloc with `"www."` removed. -/
def domain_of (url : PyStr) : PyStr := pyReplace (netlocOf url) (str "www.") []

/-! ## Size gate and renderer (bot.py 195-236) -/

/-- `fits_telegram_html` (bot.py 195-197): UTF-8 byte length at most 3800. -/
def fits_telegram_html (msg : PyStr) : Bool := utf8Len msg ≤ 3800

/-- One candidate item (the dict built at bot.py 303-311; the `category`
key is added at bot.py 323 and is `[]` until then, matching a missing
key, which is falsy like the empty string). -/
structure Item where
  id : PyStr
  title : PyStr
  link : PyStr
  ts : Int
  source_category : PyStr
  category : PyStr := []
deriving DecidableEq, Repr

/-- The selected items of one output category
(`{"name": ..., "limit": ..., "items": [...]}` of bot.py 331, 366). -/
structure CatGroup where
  name : PyStr
  limit : Nat
  items : List Item
deriving DecidableEq, Repr

/-- The bulletin header (bot.py 206):
`f"🗞️ <b>IT Moldova</b>\n<i>Buletin {now:%d.%m.%Y %H:%M}</i>\n\n"`,
with the formatted local time passed in as `dateStr` (16 ASCII
characters for this format string). -/
def headerOf (dateStr : PyStr) : PyStr :=
  str "🗞️ <b>IT Moldova</b>\n<i>Buletin " ++ dateStr ++ str "</i>\n\n"

/-- One rendered item line (bot.py 223-232):
`f'{emoji} <a href="{link}">{title}</a>\n<i>{src}</i>'`. -/
def itemLine (default_emoji : PyStr) (rules : List EmojiRule) (it : Item) : PyStr :=
  let emoji := detect_emoji it.title default_emoji rules
  let title := html_escape_text it.title
  let link := html_escape_attr it.link
  let src := html_escape_text (domain_of it.link)
  emoji ++ str " <a href=\"" ++ link ++ str "\">" ++ title
    ++ str "</a>\n<i>" ++ src ++ str "</i>"

/-- One category section of the bulletin (bot.py 218-234): the joined
lines `["<b>{name}</b>", "────────"] + item lines`, for the first
`limit` items. -/
def sectionFor (default_emoji : PyStr) (rules : List EmojiRule) (g : CatGroup) : PyStr :=
  str "<b>" ++ html_escape_text g.name ++ str "</b>" ++ str "\n" ++ str "────────"
    ++ (g.items.take g.limit).flatMap (fun it => str "\n" ++ itemLine default_emoji rules it)

/-- Python `"\n\n".join(sections)`. -/
def joinSections : List PyStr → PyStr
  | [] => []
  | [s] => s
  | s :: rest => s ++ str "\n\n" ++ joinSections rest

/-- `build_message` (bot.py 204-236): header plus the sections of the
non-empty categories, joined by blank lines. -/
def build_message (dateStr default_emoji : PyStr) (rules : List EmojiRule)
    (grouped_items : List CatGroup) : PyStr :=
  headerOf dateStr
    ++ joinSections ((grouped_items.filter (fun g => !g.items.isEmpty)).map
        (sectionFor default_emoji rules))

/-! ## The budget fitter (bot.py 376-395) -/

/-- One pass of `for gi in reversed(grouped_items): if gi["items"]:
gi["items"].pop(); break` (bot.py 380-384): remove the last item of the
last non-empty category; `none` when no category has items. -/
def popLastGroup : List CatGroup → Option (List CatGroup)
  | [] => none
  | g :: gs =>
    match popLastGroup gs with
    | some gs' => some (g :: gs')
    | none =>
      if g.items.isEmpty then none
      else some ({ g with items := g.items.dropLast } :: gs)

/-- The trimming loop of bot.py 378-390: up to 300 rounds, each removing
one item and re-rendering, stopping as soon as the message fits or no
item is left to remove. -/
def fitLoop (dateStr default_emoji : PyStr) (rules : List EmojiRule) :
    Nat → List CatGroup → PyStr → List CatGroup × PyStr
  | 0, gs, msg => (gs, msg)
  | fuel + 1, gs, msg =>
    match popLastGroup gs with
    | none => (gs, msg)
    | some gs' =>
      let msg' := build_message dateStr default_emoji rules gs'
      if fits_telegram_html msg' then (gs', msg')
      else fitLoop dateStr default_emoji rules fuel gs' msg'

/-- The message of bot.py 394-395, the last-resort payload:
`f"🗞️ <b>IT Moldova</b>\n<i>Buletin {now:%d.%m.%Y %H:%M}</i>\n\n…"`. -/
def fallbackMessage (dateStr : PyStr) : PyStr := headerOf dateStr ++ str "…"

/-- bot.py 375-395: build the message; if it does not fit, trim items
from the end until it does; if it still does not fit, degrade to the
header-only payload.  Returns the trimmed groups and the final payload. -/
def fitMessage (dateStr default_emoji : PyStr) (rules : List EmojiRule)
    (grouped_items : List CatGroup) : List CatGroup × PyStr :=
  let message := build_message dateStr default_emoji rules grouped_items
  if fits_telegram_html message then (grouped_items, message)
  else
    let r := fitLoop dateStr default_emoji rules 300 grouped_items message
    if fits_telegram_html r.2 then r
    else (r.1, fallbackMessage dateStr)

/-! ## The selection engine (bot.py 283-325) -/

/-- One configured category, as cleaned by `load_feeds_config`
(bot.py 45-77): a name, a positive limit, and the feeds.  A feed is
modelled by the entry sequence `feedparser.parse(feed_url).entries`
returned by the external parser. -/
structure CatConfig where
  name : PyStr
  limit : Nat
  feeds : List (List RawEntry)
deriving DecidableEq, Repr

/-- The per-feed entry loop (bot.py 288-312): walk the entries, stop
after `PER_SOURCE_LIMIT` are taken, skip entries whose id is in `seen`
(`posted` or `all_selected_ids`) and entries with a blank title or link.
`taken` is the running per-feed counter. -/
def collectGo (seen : List PyStr) (perSourceLimit : Nat) (catName : PyStr) :
    Nat → List RawEntry → List Item
  | _, [] => []
  | taken, e :: rest =>
    if perSourceLimit ≤ taken then []
    else if entry_id e ∈ seen then collectGo seen perSourceLimit catName taken rest
    else if (pyStrip (e.title?.getD [])).isEmpty || (pyStrip (e.link?.getD [])).isEmpty then
      collectGo seen perSourceLimit catName taken rest
    else ⟨entry_id e, pyStrip (e.title?.getD []), pyStrip (e.link?.getD []),
        entry_ts e, catName, []⟩
      :: collectGo seen perSourceLimit catName (taken + 1) rest

/-- The candidates one feed contributes: only the first 50 entries are
scanned (`feed.entries[:50]`, bot.py 290). -/
def feedCandidates (seen : List PyStr) (perSourceLimit : Nat) (catName : PyStr)
    (entries : List RawEntry) : List Item :=
  collectGo seen perSourceLimit catName 0 (entries.take 50)

/-- All candidates of one category: its feeds in order (bot.py 286). -/
def catCandidates (seen : List PyStr) (perSourceLimit : Nat) (c : CatConfig) : List Item :=
  c.feeds.flatMap (feedCandidates seen perSourceLimit c.name)

/-- Stable insertion (descending by `ts`): `x`, which originally precedes
everything in the accumulator, stays ahead of every item that is not
strictly fresher, so equal timestamps keep their original order. -/
def insertByTsDesc (x : Item) : List Item → List Item
  | [] => [x]
  | y :: ys => if y.ts ≤ x.ts then x :: y :: ys else y :: insertByTsDesc x ys

/-- `candidates.sort(key=lambda x: x["ts"], reverse=True)` (bot.py 317,
340): CPython's sort is stable, and a stable descending sort has a unique
output, here computed by stable insertion sort. -/
def sortByTsDesc (l : List Item) : List Item := l.foldr insertByTsDesc []

/-- bot.py 322-323: assign the routed category to a selected item. -/
def routeItem (known : List PyStr) (it : Item) : Item :=
  { it with category := route_category it.title it.source_category known }

/-- The per-category selection loop (bot.py 283-325), returning the
routed selection of each category that contributed candidates, in
category order.  `allSel` is `all_selected_ids`: the ids claimed by
earlier categories in this same run. -/
def selectBatches (posted known : List PyStr) (perSourceLimit : Nat) :
    List CatConfig → List PyStr → List (List Item)
  | [], _ => []
  | c :: cs, allSel =>
    if (catCandidates (posted ++ allSel) perSourceLimit c).isEmpty then
      selectBatches posted known perSourceLimit cs allSel
    else
      ((sortByTsDesc (catCandidates (posted ++ allSel) perSourceLimit c)).take c.limit).map
          (routeItem known)
        :: selectBatches posted known perSourceLimit cs
            (allSel ++ ((sortByTsDesc
                (catCandidates (posted ++ allSel) perSourceLimit c)).take c.limit).map (·.id))

/-- `routed_items` (bot.py 280, 324): the concatenation of the batches. -/
def routedItems (posted known : List PyStr) (perSourceLimit : Nat)
    (cats : List CatConfig) : List Item :=
  (selectBatches posted known perSourceLimit cats []).flatten

/-- bot.py 332-335: the bucket an item lands in —
`it.get("category") or it.get("source_category")`, falling back to the
source category when the target is not a configured bucket. -/
def bucketTarget (names : List PyStr) (it : Item) : PyStr :=
  let target := pyOrS it.category it.source_category
  if target ∈ names then target else it.source_category

/-- bot.py 330-340: regroup the routed items by target bucket, keeping
the configured category order, and sort each bucket by time descending. -/
def regroup (cats : List CatConfig) (routed : List Item) : List CatGroup :=
  let names := cats.map (·.name)
  cats.map (fun c =>
    ⟨c.name, c.limit, sortByTsDesc (routed.filter (fun it => bucketTarget names it = c.name))⟩)

/-- The inner `for it in items` loop of bot.py 357-364: take items while
the global total (`total + k`) stays below `MAX_ITEMS` and the bucket's
count `k` stays below its own limit. -/
def takeAllowed (maxItems limit total : Nat) : Nat → List Item → List Item
  | _, [] => []
  | k, it :: rest =>
    if maxItems ≤ total + k then []
    else if limit ≤ k then []
    else it :: takeAllowed maxItems limit total (k + 1) rest

/-- The global-cap walk (bot.py 342-369): per configured category, keep
up to its limit while the running total stays below `MAX_ITEMS`; stop
entirely once the total reaches `MAX_ITEMS` after a non-empty bucket.
Returns `grouped_items` and the flat `kept` list. -/
def capWalk (maxItems : Nat) : List CatGroup → Nat → List CatGroup × List Item
  | [], _ => ([], [])
  | g :: rest, total =>
    if g.items.isEmpty then
      let r := capWalk maxItems rest total
      (⟨g.name, g.limit, []⟩ :: r.1, r.2)
    else
      let allowed := takeAllowed maxItems g.limit total 0 g.items
      let total2 := total + allowed.length
      if maxItems ≤ total2 then ([⟨g.name, g.limit, allowed⟩], allowed)
      else
        let r := capWalk maxItems rest total2
        (⟨g.name, g.limit, allowed⟩ :: r.1, allowed ++ r.2)

/-- The whole selection phase of `main` (bot.py 272-372): from the start
state and the configured categories to `grouped_items` and `kept`. -/
def runSelection (posted : List PyStr) (perSourceLimit maxItems : Nat)
    (cats : List CatConfig) : List CatGroup × List Item :=
  let known := cats.map (·.name)
  let routed := routedItems posted known perSourceLimit cats
  capWalk maxItems (regroup cats routed) 0

/-- The delivery phase of `main` (bot.py 375-397): selection followed by
the budget fitter.  Returns the trimmed groups, the (untrimmed!) `kept`
list, and the payload text. -/
def runDelivered (posted : List PyStr) (perSourceLimit maxItems : Nat)
    (cats : List CatConfig) (dateStr default_emoji : PyStr) (rules : List EmojiRule) :
    List CatGroup × List Item × PyStr :=
  let sel := runSelection posted perSourceLimit maxItems cats
  let fit := fitMessage dateStr default_emoji rules sel.1
  (fit.1, sel.2, fit.2)

/-- The ids the run adds to `posted` after sending (bot.py 399-400):
all ids of `kept`. -/
def committedAddedIds (posted : List PyStr) (perSourceLimit maxItems : Nat)
    (cats : List CatConfig) (dateStr default_emoji : PyStr) (rules : List EmojiRule) :
    List PyStr :=
  (runDelivered posted perSourceLimit maxItems cats dateStr default_emoji rules).2.1.map (·.id)

/-- The ids of the items actually rendered into the delivered payload:
the items of the post-fit groups that `build_message` renders
(the first `limit` of each bucket, bot.py 223). -/
def payloadIds (posted : List PyStr) (perSourceLimit maxItems : Nat)
    (cats : List CatConfig) (dateStr default_emoji : PyStr) (rules : List EmojiRule) :
    List PyStr :=
  (runDelivered posted perSourceLimit maxItems cats dateStr default_emoji rules).1.flatMap
    (fun g => (g.items.take g.limit).map (·.id))

/-! ## Persisted state: load (bot.py 80-84) and commit (bot.py 276-277, 399-403) -/

/-- The parsed content of `state.json` when `json.load` succeeds: the
`posted_ids` key may be absent (`state.get("posted_ids", [])` at
bot.py 277 then yields `[]`); other keys are irrelevant to the core. -/
structure StateJson where
  posted_ids? : Option (List PyStr)
deriving DecidableEq, Repr

/-- The observable condition of the state file at run start. -/
inductive StateFile where
  | absent
  | unparseable
  | parsed (s : StateJson)
deriving DecidableEq, Repr

/-- `load_state` (bot.py 80-84): `{"posted_ids": []}` when the file does
not exist; otherwise the result of `json.load`, which raises (modelled by
`Except.error`) when the stored text is not valid JSON. -/
def load_state : StateFile → Except Unit StateJson
  | .absent => .ok ⟨some []⟩
  | .unparseable => .error ()
  | .parsed s => .ok s

/-- bot.py 402: `list(posted)[-2000:]`.  `posted` is a Python `set`, so
`list(posted)` is some enumeration of its elements in an unspecified
(hash-dependent) order; the script keeps the last 2000 entries of that
enumeration.  `enum` is the enumeration the interpreter produced. -/
def commit_posted (enum : List PyStr) : List PyStr := enum.drop (enum.length - 2000)

/-- What it means for `enum` to be a possible value of `list(posted)`
after `posted = set(oldIds)` followed by `posted.add(it["id"]) for it in
kept` (bot.py 276-277, 399-400): an enumeration, without repetition, of
exactly the ids of `oldIds` and `keptIds`. -/
def IsSetEnum (oldIds keptIds enum : List PyStr) : Prop :=
  enum.Nodup
    ∧ (∀ x ∈ enum, x ∈ oldIds ∨ x ∈ keptIds)
    ∧ (∀ x ∈ oldIds, x ∈ enum)
    ∧ (∀ x ∈ keptIds, x ∈ enum)

instance (oldIds keptIds enum : List PyStr) : Decidable (IsSetEnum oldIds keptIds enum) := by
  unfold IsSetEnum
  exact inferInstance

/-- The commit as the spec describes it (§4.2, claim C4): previously
retained ids keep their relative order, new ids are appended at the end
in insertion order, then the list is truncated from the front to the
most recent 2000. -/
def commitSpec (oldIds keptIds : List PyStr) : List PyStr :=
  let merged := oldIds ++ keptIds.filter (fun x => x ∉ oldIds)
  merged.drop (merged.length - 2000)

/-! ## Delivery (bot.py 239-253, 397-403) -/

/-- `send_message` (bot.py 239-253), with the HTTP layer modelled by the
success of its two `requests.post` calls: `ok1` for the HTML-formatted
send, `ok2` for the plain-text fallback; both failing raises
`RuntimeError` (modelled by `Except.error`). -/
def send_message (ok1 ok2 : Bool) : Except PyStr Unit :=
  if ok1 then .ok ()
  else if ok2 then .ok ()
  else .error (str "RuntimeError")

/-- The tail of `main` (bot.py 397-403): send, and only on success update
`posted` and write the state file.  Returns the run's outcome and the
content of the persisted `posted_ids` list after the run (`oldFile` — the
prior content — when `save_state` was never reached, `commit_posted enum`
when it was). -/
def deliverAndCommit (ok1 ok2 : Bool) (oldFile enum : List PyStr) :
    Except PyStr Unit × List PyStr :=
  match send_message ok1 ok2 with
  | .error e => (.error e, oldFile)
  | .ok _ => (.ok (), commit_posted enum)

/-! ## Derived notions used in the claim statements -/

/-- The number of selected items across a list of output groups. -/
def sumItems (gs : List CatGroup) : Nat := (gs.map (fun g => g.items.length)).sum

/-- Discard every feed entry beyond position 50 of a category's feeds. -/
def truncateFeeds (c : CatConfig) : CatConfig := { c with feeds := c.feeds.map (List.take 50) }

/-! # Lemmas -/

theorem utf8Len_append (a b : PyStr) : utf8Len (a ++ b) = utf8Len a + utf8Len b := by
  simp [utf8Len]

theorem fits_iff (m : PyStr) : fits_telegram_html m = true ↔ utf8Len m ≤ 3800 := by
  simp [fits_telegram_html]

/-- On a keyword list without empty keywords, the router's inner loop is
the plain any-substring test. -/
theorem any_keyword_congr (t : PyStr) (kws : List PyStr)
    (h : ∀ kw ∈ kws, kw.isEmpty = false) :
    kws.any (fun kw => !kw.isEmpty && pyIn kw t) = kws.any (fun kw => pyIn kw t) := by
  induction kws with
  | nil => rfl
  | cons kw rest ih =>
    have hk := h kw (by simp)
    simp only [List.any_cons, hk, Bool.not_false, Bool.true_and]
    rw [ih (fun k hm => h k (by simp [hm]))]

/-- On rules with truthy targets and truthy keywords, the source's rule
loop returns the first rule satisfying the spec's condition. -/
theorem routeGo_eq_find (t : PyStr) (known : List PyStr) (rules : List RoutingRule)
    (h : ∀ r ∈ rules, r.target ≠ [] ∧ ∀ kw ∈ r.keywords, kw.isEmpty = false) :
    routeGo t known rules
      = (rules.find? (fun r => decide (r.target ∈ known)
          && r.keywords.any (fun kw => pyIn kw t))).map (·.target) := by
  induction rules with
  | nil => rfl
  | cons rule rest ih =>
    have hr := h rule (by simp)
    have hrest : ∀ r ∈ rest, r.target ≠ [] ∧ ∀ kw ∈ r.keywords, kw.isEmpty = false :=
      fun r hm => h r (by simp [hm])
    unfold routeGo
    rw [List.find?_cons]
    by_cases hmem : rule.target ∈ known
    · rw [if_pos ⟨hr.1, hmem⟩]
      rw [any_keyword_congr t rule.keywords hr.2]
      cases hany : rule.keywords.any (fun kw => pyIn kw t) with
      | true => simp [hmem, hany]
      | false => simp [hmem, hany, ih hrest]
    · rw [if_neg (by tauto)]
      simp [hmem, ih hrest]

/-- Closed form of the inner cap loop: it takes a prefix bounded by the
remaining bucket allowance and the remaining global allowance. -/
theorem takeAllowed_eq_take (maxItems limit total : Nat) :
    ∀ (l : List Item) (k : Nat),
      takeAllowed maxItems limit total k l = l.take (min (limit - k) (maxItems - total - k)) := by
  intro l
  induction l with
  | nil => intro k; simp [takeAllowed]
  | cons it rest ih =>
    intro k
    unfold takeAllowed
    by_cases h1 : maxItems ≤ total + k
    · have hz : min (limit - k) (maxItems - total - k) = 0 := by omega
      simp [h1, hz]
    · by_cases h2 : limit ≤ k
      · have hz : min (limit - k) (maxItems - total - k) = 0 := by omega
        simp [h1, h2, hz]
      · have hm : min (limit - k) (maxItems - total - k)
            = min (limit - (k + 1)) (maxItems - total - (k + 1)) + 1 := by omega
        rw [if_neg h1, if_neg h2, hm, List.take_succ_cons, ih (k + 1)]

theorem takeAllowed_length_le_limit (maxItems limit total : Nat) (l : List Item) :
    (takeAllowed maxItems limit total 0 l).length ≤ limit := by
  rw [takeAllowed_eq_take, List.length_take]
  omega

theorem takeAllowed_length_le_global (maxItems limit total : Nat) (l : List Item) :
    (takeAllowed maxItems limit total 0 l).length ≤ maxItems - total := by
  rw [takeAllowed_eq_take, List.length_take]
  omega

theorem takeAllowed_subset (maxItems limit total : Nat) (l : List Item) :
    takeAllowed maxItems limit total 0 l ⊆ l := by
  rw [takeAllowed_eq_take]
  exact List.take_subset _ _

/-- Every output group of the cap walk respects its own limit. -/
theorem capWalk_groups_le (maxItems : Nat) :
    ∀ (bs : List CatGroup) (total : Nat), ∀ g ∈ (capWalk maxItems bs total).1,
      g.items.length ≤ g.limit := by
  intro bs
  induction bs with
  | nil => intro total g hg; simp [capWalk] at hg
  | cons b rest ih =>
    intro total g hg
    unfold capWalk at hg
    by_cases hb : b.items.isEmpty
    · rw [if_pos hb] at hg
      rcases List.mem_cons.mp hg with h | h
      · subst h; simp
      · exact ih total g h
    · rw [if_neg hb] at hg
      by_cases hbr : maxItems ≤ total + (takeAllowed maxItems b.limit total 0 b.items).length
      · rw [if_pos hbr] at hg
        rcases List.mem_cons.mp hg with h | h
        · subst h; exact takeAllowed_length_le_limit _ _ _ _
        · simp at h
      · rw [if_neg hbr] at hg
        rcases List.mem_cons.mp hg with h | h
        · subst h; exact takeAllowed_length_le_limit _ _ _ _
        · exact ih _ g h

/-- The flat kept list of the cap walk stays within the global budget. -/
theorem capWalk_kept_le (maxItems : Nat) :
    ∀ (bs : List CatGroup) (total : Nat),
      total + (capWalk maxItems bs total).2.length ≤ max total maxItems := by
  intro bs
  induction bs with
  | nil => intro total; simp [capWalk]
  | cons b rest ih =>
    intro total
    unfold capWalk
    by_cases hb : b.items.isEmpty
    · rw [if_pos hb]
      exact ih total
    · rw [if_neg hb]
      have hlen := takeAllowed_length_le_global maxItems b.limit total b.items
      by_cases hbr : maxItems ≤ total + (takeAllowed maxItems b.limit total 0 b.items).length
      · rw [if_pos hbr]
        simp only
        omega
      · rw [if_neg hbr]
        have := ih (total + (takeAllowed maxItems b.limit total 0 b.items).length)
        simp only [List.length_append] at *
        omega

/-- Once the running total has reached the global cap, every later output
group of the cap walk is empty. -/
theorem capWalk_prefix_empty (maxItems : Nat) :
    ∀ (bs : List CatGroup) (total : Nat) (gs₁ : List CatGroup) (g : CatGroup)
      (gs₂ : List CatGroup),
      (capWalk maxItems bs total).1 = gs₁ ++ g :: gs₂ →
      maxItems ≤ total + sumItems gs₁ → g.items = [] := by
  intro bs
  induction bs with
  | nil => intro total gs₁ g gs₂ h _; simp [capWalk] at h
  | cons b rest ih =>
    intro total gs₁ g gs₂ h htot
    unfold capWalk at h
    by_cases hb : b.items.isEmpty
    · rw [if_pos hb] at h
      cases gs₁ with
      | nil =>
        simp only [List.nil_append, List.cons.injEq] at h
        exact (congrArg CatGroup.items h.1).symm
      | cons g₁ gs₁' =>
        simp only [List.cons_append, List.cons.injEq] at h
        refine ih total gs₁' g gs₂ h.2 ?_
        have hsum : sumItems (g₁ :: gs₁') = g₁.items.length + sumItems gs₁' := by
          simp [sumItems]
        have hg₁ : g₁.items.length = 0 := by
          rw [← (congrArg CatGroup.items h.1)]
          simp
        omega
    · rw [if_neg hb] at h
      set allowed := takeAllowed maxItems b.limit total 0 b.items with hallowed
      by_cases hbr : maxItems ≤ total + allowed.length
      · rw [if_pos hbr] at h
        cases gs₁ with
        | nil =>
          simp only [List.nil_append, List.cons.injEq] at h
          have hga : g.items = takeAllowed maxItems b.limit total 0 b.items :=
            (congrArg CatGroup.items h.1).symm
          have hz : min (b.limit - 0) (maxItems - total - 0) = 0 := by
            simp only [sumItems, List.map_nil, List.sum_nil, Nat.add_zero] at htot
            omega
          rw [hga, takeAllowed_eq_take, hz]
          simp
        | cons g₁ gs₁' =>
          simp only [List.cons_append, List.cons.injEq] at h
          exact absurd h.2 (by simp)
      · rw [if_neg hbr] at h
        cases gs₁ with
        | nil =>
          simp only [List.nil_append, List.cons.injEq] at h
          simp only [sumItems, List.map_nil, List.sum_nil, Nat.add_zero] at htot
          omega
        | cons g₁ gs₁' =>
          simp only [List.cons_append, List.cons.injEq] at h
          refine ih (total + allowed.length) gs₁' g gs₂ h.2 ?_
          have hsum : sumItems (g₁ :: gs₁') = g₁.items.length + sumItems gs₁' := by
            simp [sumItems]
          have hg₁ : g₁.items.length = allowed.length := by
            rw [← (congrArg CatGroup.items h.1)]
          omega

/-- Every output group of the cap walk carries the name and limit of one
of the input buckets. -/
theorem capWalk_groups_from (maxItems : Nat) :
    ∀ (bs : List CatGroup) (total : Nat), ∀ g ∈ (capWalk maxItems bs total).1,
      ∃ b ∈ bs, g.name = b.name ∧ g.limit = b.limit := by
  intro bs
  induction bs with
  | nil => intro total g hg; simp [capWalk] at hg
  | cons b rest ih =>
    intro total g hg
    unfold capWalk at hg
    by_cases hb : b.items.isEmpty
    · rw [if_pos hb] at hg
      rcases List.mem_cons.mp hg with h | h
      · exact ⟨b, by simp, by rw [h], by rw [h]⟩
      · obtain ⟨b', hb', h1, h2⟩ := ih total g h
        exact ⟨b', by simp [hb'], h1, h2⟩
    · rw [if_neg hb] at hg
      by_cases hbr : maxItems ≤ total + (takeAllowed maxItems b.limit total 0 b.items).length
      · rw [if_pos hbr] at hg
        rcases List.mem_cons.mp hg with h | h
        · exact ⟨b, by simp, by rw [h], by rw [h]⟩
        · simp at h
      · rw [if_neg hbr] at hg
        rcases List.mem_cons.mp hg with h | h
        · exact ⟨b, by simp, by rw [h], by rw [h]⟩
        · obtain ⟨b', hb', h1, h2⟩ := ih _ g h
          exact ⟨b', by simp [hb'], h1, h2⟩

theorem mem_insertByTsDesc (a x : Item) (l : List Item) :
    a ∈ insertByTsDesc x l ↔ a = x ∨ a ∈ l := by
  induction l with
  | nil => simp [insertByTsDesc]
  | cons y ys ih =>
    unfold insertByTsDesc
    by_cases h : y.ts ≤ x.ts
    · rw [if_pos h]
      simp
    · rw [if_neg h]
      simp only [List.mem_cons, ih]
      tauto

theorem mem_sortByTsDesc (a : Item) (l : List Item) :
    a ∈ sortByTsDesc l ↔ a ∈ l := by
  induction l with
  | nil => simp [sortByTsDesc]
  | cons x xs ih =>
    show a ∈ insertByTsDesc x (sortByTsDesc xs) ↔ _
    rw [mem_insertByTsDesc, ih]
    simp

/-- Every candidate the per-feed loop emits has an id outside `seen`. -/
theorem collectGo_id_not_seen (seen : List PyStr) (perSourceLimit : Nat) (catName : PyStr) :
    ∀ (entries : List RawEntry) (taken : Nat) (it : Item),
      it ∈ collectGo seen perSourceLimit catName taken entries → it.id ∉ seen := by
  intro entries
  induction entries with
  | nil => intro taken it h; simp [collectGo] at h
  | cons e rest ih =>
    intro taken it h
    unfold collectGo at h
    by_cases h1 : perSourceLimit ≤ taken
    · rw [if_pos h1] at h; simp at h
    · rw [if_neg h1] at h
      by_cases h2 : entry_id e ∈ seen
      · rw [if_pos h2] at h; exact ih taken it h
      · rw [if_neg h2] at h
        by_cases h3 : ((pyStrip (e.title?.getD [])).isEmpty
            || (pyStrip (e.link?.getD [])).isEmpty) = true
        · rw [if_pos h3] at h; exact ih taken it h
        · rw [if_neg h3] at h
          rcases List.mem_cons.mp h with h4 | h4
          · rw [h4]; exact h2
          · exact ih (taken + 1) it h4

/-- Every candidate a category collects has an id outside `seen`. -/
theorem catCandidates_id_not_seen (seen : List PyStr) (perSourceLimit : Nat)
    (c : CatConfig) (it : Item) (h : it ∈ catCandidates seen perSourceLimit c) :
    it.id ∉ seen := by
  obtain ⟨entries, _, hmem⟩ := List.mem_flatMap.mp h
  exact collectGo_id_not_seen seen perSourceLimit c.name _ 0 it hmem

/-- Routing does not change an item's id. -/
theorem routeItem_id (known : List PyStr) (it : Item) : (routeItem known it).id = it.id := rfl

/-- Every item of every batch produced by the selection loop has an id
that is neither in `posted` nor in the `all_selected_ids` accumulator the
loop started from. -/
theorem selectBatches_id_not_seen (posted known : List PyStr) (perSourceLimit : Nat) :
    ∀ (cats : List CatConfig) (allSel : List PyStr) (b : List Item) (it : Item),
      b ∈ selectBatches posted known perSourceLimit cats allSel → it ∈ b →
      it.id ∉ posted ∧ it.id ∉ allSel := by
  intro cats
  induction cats with
  | nil => intro allSel b it hb _; simp [selectBatches] at hb
  | cons c cs ih =>
    intro allSel b it hb hit
    unfold selectBatches at hb
    by_cases hc : (catCandidates (posted ++ allSel) perSourceLimit c).isEmpty = true
    · rw [if_pos hc] at hb
      exact ih allSel b it hb hit
    · rw [if_neg hc] at hb
      rcases List.mem_cons.mp hb with h | h
      · subst h
        obtain ⟨x, hx, hxe⟩ := List.mem_map.mp hit
        have hxc : x ∈ catCandidates (posted ++ allSel) perSourceLimit c :=
          (mem_sortByTsDesc x _).mp (List.take_subset _ _ hx)
        have := catCandidates_id_not_seen _ _ _ _ hxc
        rw [← hxe, routeItem_id]
        constructor
        · intro hp; exact this (List.mem_append.mpr (Or.inl hp))
        · intro hp; exact this (List.mem_append.mpr (Or.inr hp))
      · have := ih _ b it h hit
        exact ⟨this.1, fun hp => this.2 (List.mem_append.mpr (Or.inl hp))⟩

/-- Every kept item of the cap walk came from one of the input buckets. -/
theorem capWalk_kept_mem (maxItems : Nat) :
    ∀ (bs : List CatGroup) (total : Nat) (it : Item),
      it ∈ (capWalk maxItems bs total).2 → ∃ g ∈ bs, it ∈ g.items := by
  intro bs
  induction bs with
  | nil => intro total it h; simp [capWalk] at h
  | cons b rest ih =>
    intro total it h
    unfold capWalk at h
    by_cases hb : b.items.isEmpty
    · rw [if_pos hb] at h
      obtain ⟨g, hg, hgit⟩ := ih total it h
      exact ⟨g, by simp [hg], hgit⟩
    · rw [if_neg hb] at h
      by_cases hbr : maxItems ≤ total + (takeAllowed maxItems b.limit total 0 b.items).length
      · rw [if_pos hbr] at h
        exact ⟨b, by simp, takeAllowed_subset _ _ _ _ h⟩
      · rw [if_neg hbr] at h
        rcases List.mem_append.mp h with h1 | h1
        · exact ⟨b, by simp, takeAllowed_subset _ _ _ _ h1⟩
        · obtain ⟨g, hg, hgit⟩ := ih _ it h1
          exact ⟨g, by simp [hg], hgit⟩

/-- Every kept item of a run's final selection is one of the routed
items of the selection loop. -/
theorem runSelection_kept_mem_routed (posted : List PyStr) (perSourceLimit maxItems : Nat)
    (cats : List CatConfig) (it : Item)
    (h : it ∈ (runSelection posted perSourceLimit maxItems cats).2) :
    it ∈ routedItems posted (cats.map (·.name)) perSourceLimit cats := by
  obtain ⟨g, hg, hgit⟩ := capWalk_kept_mem maxItems _ 0 it h
  simp only [regroup, List.mem_map] at hg
  obtain ⟨c, _, hcb⟩ := hg
  rw [← hcb] at hgit
  have := (mem_sortByTsDesc it _).mp hgit
  exact List.mem_filter.mp this |>.1

end Bot

namespace Bot

/-! # Claims -/

/-- C3 counterexample: with the state file present but unparseable,
`load_state` raises (`json.load` propagates), instead of returning the
empty history the claim promises. -/
theorem c3_counterexample : load_state StateFile.unparseable = Except.error () := rfl

/-- C3 (amended): loading the persisted dedup state returns the empty
history when the state file is absent, and returns the parsed state when
the file parses; but when the file is present and unparseable the load
raises instead of returning an empty history. -/
theorem c3_amended :
    load_state StateFile.absent = Except.ok ⟨some []⟩
      ∧ (∀ s : StateJson, load_state (StateFile.parsed s) = Except.ok s)
      ∧ load_state StateFile.unparseable = Except.error () :=
  ⟨rfl, fun _ => rfl, rfl⟩

/-- C4 counterexample: `posted` is a Python `set`, so `list(posted)` may
enumerate the previously retained ids `["a", "b"]` as `["b", "a"]` — a
legitimate set enumeration whose committed result does not preserve the
persisted relative order that the claim requires. -/
theorem c4_counterexample :
    IsSetEnum [str "a", str "b"] [] [str "b", str "a"]
      ∧ commit_posted [str "b", str "a"] ≠ commitSpec [str "a", str "b"] [] := by
  decide

/-- C4 (amended): committing persists some enumeration of the union of
the previously retained ids and the run's newly delivered ids, truncated
to its last at most 2000 entries; because the enumeration order of a
Python set is unspecified, the relative order of previously retained ids
is not preserved and eviction is not oldest-first — only the bound and
the membership hold: at most 2000 ids are persisted, each drawn from the
old ids or the newly delivered ids. -/
theorem c4_amended (oldIds keptIds enum : List PyStr) (h : IsSetEnum oldIds keptIds enum) :
    (commit_posted enum).length ≤ 2000
      ∧ ∀ x ∈ commit_posted enum, x ∈ oldIds ∨ x ∈ keptIds := by
  constructor
  · simp only [commit_posted, List.length_drop]
    omega
  · intro x hx
    exact h.2.1 x (List.drop_subset _ _ hx)

/-- Witness for C4 (amended) at a concrete enumeration. -/
theorem c4_amended_witness :
    IsSetEnum [str "a"] [str "b"] [str "a", str "b"]
      ∧ ((commit_posted [str "a", str "b"]).length ≤ 2000
        ∧ ∀ x ∈ commit_posted [str "a", str "b"], x ∈ [str "a"] ∨ x ∈ [str "b"]) :=
  ⟨by decide, c4_amended [str "a"] [str "b"] [str "a", str "b"] (by decide)⟩

/-- C8: when the HTML-formatted send fails and the plain-text fallback
also fails, the error propagates, and the persisted `posted_ids` stay
exactly the prior file content; and in general the persisted state either
stays unchanged or the delivery succeeded. -/
theorem c8_atomic_commit (oldFile enum : List PyStr) (ok1 ok2 : Bool) :
    deliverAndCommit false false oldFile enum = (Except.error (str "RuntimeError"), oldFile)
      ∧ ((deliverAndCommit ok1 ok2 oldFile enum).1 = Except.ok ()
        ∨ (deliverAndCommit ok1 ok2 oldFile enum).2 = oldFile) := by
  refine ⟨rfl, ?_⟩
  cases ok1 <;> cases ok2 <;> simp [deliverAndCommit, send_message]

/-- C9: the router returns the target of the first configured rule, in
declaration order, whose target is a known category name and one of whose
keywords occurs in the lower-cased title, and otherwise the source
category; `routeSpec` is that first-match description transcribed from
the spec, and the router is a pure function of
`(title, sourceCategory, knownCategoryNames)`, so equality with it gives
determinism. -/
theorem c9_routing (title current_category : PyStr) (known_categories : List PyStr) :
    route_category title current_category known_categories
      = routeSpec title current_category known_categories := by
  unfold route_category routeSpec
  rw [routeGo_eq_find _ _ _ (by decide)]
  cases h : ROUTING_RULES.find? (fun r => decide (r.target ∈ known_categories)
      && r.keywords.any (fun kw => pyIn kw (pyLower title))) <;> simp [h]

/-- C6: whatever grouped selection reaches the delivery step, the final
payload is at most 3800 UTF-8 bytes: the initial render is used only if
it fits, the trimming loop's result is used only if it fits, and the
header-plus-truncation-marker fallback (whose date part, produced by
`%d.%m.%Y %H:%M`, is 16 ASCII characters) always fits. -/
theorem c6_budget (dateStr default_emoji : PyStr) (rules : List EmojiRule)
    (grouped_items : List CatGroup) (hd : utf8Len dateStr = 16) :
    utf8Len (fitMessage dateStr default_emoji rules grouped_items).2 ≤ 3800 := by
  unfold fitMessage
  by_cases h1 : fits_telegram_html (build_message dateStr default_emoji rules grouped_items) = true
  · rw [if_pos h1]
    exact (fits_iff _).mp h1
  · rw [if_neg h1]
    by_cases h2 : fits_telegram_html
        (fitLoop dateStr default_emoji rules 300 grouped_items
          (build_message dateStr default_emoji rules grouped_items)).2 = true
    · rw [if_pos h2]
      exact (fits_iff _).mp h2
    · rw [if_neg h2]
      show utf8Len (fallbackMessage dateStr) ≤ 3800
      simp only [fallbackMessage, headerOf, utf8Len_append, hd]
      decide

/-- Witness for C6 at a concrete date string and an empty selection. -/
theorem c6_budget_witness :
    utf8Len (str "01.01.2025 12:00") = 16
      ∧ utf8Len (fitMessage (str "01.01.2025 12:00") (str "📰") [] []).2 ≤ 3800 :=
  ⟨by decide, c6_budget (str "01.01.2025 12:00") (str "📰") [] [] (by decide)⟩

/-- C5: the final selection respects both caps: every output bucket holds
at most its category's configured limit (also after absorbing routed-in
items — the bucket walked by the global cap is the post-routing one), the
total kept across buckets is at most `MAX_ITEMS`, and any bucket that
appears after the running total has reached `MAX_ITEMS` is empty. -/
theorem c5_caps (posted : List PyStr) (perSourceLimit maxItems : Nat) (cats : List CatConfig) :
    (∀ g ∈ (runSelection posted perSourceLimit maxItems cats).1,
        g.items.length ≤ g.limit ∧ ∃ c ∈ cats, g.name = c.name ∧ g.limit = c.limit)
      ∧ (runSelection posted perSourceLimit maxItems cats).2.length ≤ maxItems
      ∧ (∀ (gs₁ : List CatGroup) (g : CatGroup) (gs₂ : List CatGroup),
          (runSelection posted perSourceLimit maxItems cats).1 = gs₁ ++ g :: gs₂ →
          maxItems ≤ sumItems gs₁ → g.items = []) := by
  have hrs : runSelection posted perSourceLimit maxItems cats
      = capWalk maxItems
          (regroup cats (routedItems posted (cats.map (·.name)) perSourceLimit cats)) 0 := rfl
  refine ⟨?_, ?_, ?_⟩
  · intro g hg
    rw [hrs] at hg
    refine ⟨capWalk_groups_le maxItems _ 0 g hg, ?_⟩
    obtain ⟨b, hb, h1, h2⟩ := capWalk_groups_from maxItems _ 0 g hg
    simp only [regroup, List.mem_map] at hb
    obtain ⟨c, hc, hcb⟩ := hb
    exact ⟨c, hc, by rw [h1, ← hcb], by rw [h2, ← hcb]⟩
  · rw [hrs]
    have := capWalk_kept_le maxItems
      (regroup cats (routedItems posted (cats.map (·.name)) perSourceLimit cats)) 0
    omega
  · intro gs₁ g gs₂ h hsum
    rw [hrs] at h
    exact capWalk_prefix_empty maxItems _ 0 gs₁ g gs₂ h (by omega)

/-- C7: a kept item's id is never one of the ids loaded from the Dedup
Store at the start of the run — the per-feed loop skips every entry whose
id is in `posted`, and every later stage only narrows the selection. -/
theorem c7_dedup (posted : List PyStr) (perSourceLimit maxItems : Nat)
    (cats : List CatConfig) (it : Item)
    (h : it ∈ (runSelection posted perSourceLimit maxItems cats).2) :
    it.id ∉ posted := by
  have hr := runSelection_kept_mem_routed posted perSourceLimit maxItems cats it h
  obtain ⟨b, hb, hbit⟩ := List.mem_flatten.mp hr
  exact (selectBatches_id_not_seen posted _ perSourceLimit cats [] b it hb hbit).1

/-- Witness for C7: with `"x"` already in the store and a feed offering
entries `"x"` and `"dup"`, the run keeps exactly the `"dup"` item, whose
id is not in the store. -/
theorem c7_dedup_witness :
    (⟨str "dup", str "T1", str "http://a/1", 10, str "B", str "B"⟩ : Item)
        ∈ (runSelection [str "x"] 5 25
            [⟨str "B", 2, [[⟨some (str "x"), none, some (str "http://a/3"),
                  some (str "T3"), some 7, none⟩,
                ⟨some (str "dup"), none, some (str "http://a/1"),
                  some (str "T1"), some 10, none⟩]]⟩]).2
      ∧ (⟨str "dup", str "T1", str "http://a/1", 10, str "B", str "B"⟩ : Item).id
          ∉ [str "x"] :=
  ⟨by decide,
    c7_dedup [str "x"] 5 25
      [⟨str "B", 2, [[⟨some (str "x"), none, some (str "http://a/3"),
            some (str "T3"), some 7, none⟩,
          ⟨some (str "dup"), none, some (str "http://a/1"),
            some (str "T1"), some 10, none⟩]]⟩]
      ⟨str "dup", str "T1", str "http://a/1", 10, str "B", str "B"⟩ (by decide)⟩

/-- Witness for C5 at a concrete run with `MAX_ITEMS = 0`: the single
bucket, which follows an empty prefix whose total already meets the cap,
is empty. -/
theorem c5_caps_witness :
    ((runSelection [] 5 0
          [⟨str "A", 5, [[⟨some (str "w"), none, some (str "http://w/1"),
              some (str "W"), some 3, none⟩]]⟩]).1
        = [] ++ (⟨str "A", 5, []⟩ : CatGroup) :: []
      ∧ 0 ≤ sumItems [])
      ∧ (⟨str "A", 5, []⟩ : CatGroup).items = [] :=
  ⟨⟨by decide, by decide⟩,
    (c5_caps [] 5 0
        [⟨str "A", 5, [[⟨some (str "w"), none, some (str "http://w/1"),
            some (str "W"), some 3, none⟩]]⟩]).2.2
      [] ⟨str "A", 5, []⟩ [] (by decide) (by decide)⟩

/-- The C2 counterexample run: one category whose two feeds each yield an
entry with the same derived id `"dup"`. -/
def c2Cat : CatConfig :=
  ⟨str "A", 2,
    [[⟨some (str "dup"), none, some (str "http://a/1"), some (str "T1"), some 10, none⟩],
     [⟨some (str "dup"), none, some (str "http://a/2"), some (str "T2"), some 5, none⟩]]⟩

/-- C2 counterexample: two feeds of the *same* category yielding the same
derived id are both selected — `all_selected_ids` only grows after a
whole category is processed, so same-category duplicates are not
suppressed and the final selection's ids are not pairwise distinct. -/
theorem c2_counterexample :
    ((runSelection [] 5 25 [c2Cat]).2.map (·.id)) = [str "dup", str "dup"]
      ∧ ¬ ((runSelection [] 5 25 [c2Cat]).2.map (·.id)).Nodup := by
  decide

/-- C2 (amended): duplicate-id suppression holds across categories, not
within one: the per-category batches of the selection loop have pairwise
disjoint id sets, so when two feed sources in different categories yield
the same derived id only the earlier category's entry is selected; two
sources inside the same category may both contribute the same id. -/
theorem c2_amended (posted known : List PyStr) (perSourceLimit : Nat)
    (cats : List CatConfig) (allSel : List PyStr) :
    List.Pairwise (fun b1 b2 => ∀ it1 ∈ b1, ∀ it2 ∈ b2, it1.id ≠ it2.id)
      (selectBatches posted known perSourceLimit cats allSel) := by
  induction cats generalizing allSel with
  | nil => simp [selectBatches]
  | cons c cs ih =>
    unfold selectBatches
    by_cases hc : (catCandidates (posted ++ allSel) perSourceLimit c).isEmpty = true
    · rw [if_pos hc]
      exact ih allSel
    · rw [if_neg hc]
      refine List.Pairwise.cons ?_ (ih _)
      intro b2 hb2 it1 hit1 it2 hit2 heq
      have h2 := (selectBatches_id_not_seen posted known perSourceLimit cs _ b2 it2 hb2 hit2).2
      obtain ⟨x, hx, hxe⟩ := List.mem_map.mp hit1
      apply h2
      apply List.mem_append.mpr
      right
      rw [← heq, ← hxe, routeItem_id]
      exact List.mem_map.mpr ⟨x, hx, rfl⟩

/-- Per-feed candidates only depend on the first 50 entries. -/
theorem feedCandidates_take50 (seen : List PyStr) (perSourceLimit : Nat)
    (catName : PyStr) (entries : List RawEntry) :
    feedCandidates seen perSourceLimit catName (entries.take 50)
      = feedCandidates seen perSourceLimit catName entries := by
  unfold feedCandidates
  rw [List.take_take]
  simp

/-- A category's candidates only depend on each feed's first 50 entries. -/
theorem catCandidates_trunc (seen : List PyStr) (perSourceLimit : Nat) (c : CatConfig) :
    catCandidates seen perSourceLimit (truncateFeeds c)
      = catCandidates seen perSourceLimit c := by
  unfold catCandidates truncateFeeds
  simp only [List.flatMap_map]
  induction c.feeds with
  | nil => rfl
  | cons f fs ihf =>
    simp only [List.flatMap_cons, ihf]
    rw [feedCandidates_take50]

/-- The selection loop only depends on each feed's first 50 entries. -/
theorem selectBatches_trunc (posted known : List PyStr) (perSourceLimit : Nat) :
    ∀ (cats : List CatConfig) (allSel : List PyStr),
      selectBatches posted known perSourceLimit (cats.map truncateFeeds) allSel
        = selectBatches posted known perSourceLimit cats allSel := by
  intro cats
  induction cats with
  | nil => intro allSel; rfl
  | cons c cs ih =>
    intro allSel
    show selectBatches posted known perSourceLimit (truncateFeeds c :: cs.map truncateFeeds) allSel
      = selectBatches posted known perSourceLimit (c :: cs) allSel
    unfold selectBatches
    rw [catCandidates_trunc]
    have hlim : (truncateFeeds c).limit = c.limit := rfl
    rw [hlim]
    by_cases hc : (catCandidates (posted ++ allSel) perSourceLimit c).isEmpty = true
    · rw [if_pos hc, if_pos hc, ih]
    · rw [if_neg hc, if_neg hc, ih]

/-- C10: the whole selection is unchanged when every feed is cut to its
first 50 entries — `feed.entries[:50]` means an entry at position 51 or
later is never considered, hence never selected, regardless of freshness
or remaining caps. -/
theorem c10_first50 (posted : List PyStr) (perSourceLimit maxItems : Nat)
    (cats : List CatConfig) :
    runSelection posted perSourceLimit maxItems (cats.map truncateFeeds)
      = runSelection posted perSourceLimit maxItems cats := by
  have hnames : (cats.map truncateFeeds).map (·.name) = cats.map (·.name) := by
    rw [List.map_map]
    exact List.map_congr_left (fun c _ => rfl)
  have hregroup : ∀ r : List Item,
      regroup (cats.map truncateFeeds) r = regroup cats r := by
    intro r
    unfold regroup
    rw [hnames, List.map_map]
    exact List.map_congr_left (fun c _ => rfl)
  have h1 : runSelection posted perSourceLimit maxItems (cats.map truncateFeeds)
      = capWalk maxItems (regroup (cats.map truncateFeeds)
          ((selectBatches posted ((cats.map truncateFeeds).map (·.name)) perSourceLimit
            (cats.map truncateFeeds) []).flatten)) 0 := rfl
  have h2 : runSelection posted perSourceLimit maxItems cats
      = capWalk maxItems (regroup cats
          ((selectBatches posted (cats.map (·.name)) perSourceLimit cats []).flatten)) 0 := rfl
  rw [h1, h2, hnames, selectBatches_trunc, hregroup]

/-- The C1 run: one category, one feed, two fresh items whose titles are
500 four-byte glyphs each, so the two-item render (about 4200 bytes)
exceeds the 3800-byte budget and the fitter trims the second item. -/
def c1Cat : CatConfig :=
  ⟨str "A", 5,
    [[⟨some (str "i1"), none, some (str "http://x/1"),
        some (List.replicate 500 '🗞'), some 2, none⟩,
      ⟨some (str "i2"), none, some (str "http://x/2"),
        some (List.replicate 500 '🗞'), some 1, none⟩]]⟩

set_option maxRecDepth 40000 in
/-- C1 fails on the code: in this run the Budget Fitter removes item
`"i2"` from the outgoing message (the delivered payload renders only
`"i1"`), yet the ids committed to the Dedup Store after the send are
`["i1", "i2"]` — the trimming loop pops from `grouped_items` but never
removes the popped items from `kept` (the bot.py 389 comment announces
keeping `kept` in sync, and no code does), so a trimmed, undelivered item
is marked as delivered. -/
theorem c1_trimmed_id_still_committed :
    committedAddedIds [] 5 25 [c1Cat] (str "01.01.2025 12:00") (str "📰") []
        = [str "i1", str "i2"]
      ∧ payloadIds [] 5 25 [c1Cat] (str "01.01.2025 12:00") (str "📰") []
        = [str "i1"] := by
  decide

end Bot

